import Mathlib

/-!
Verification development for the svn-merge-tool repository.

The TypeScript sources are shallowly embedded as executable Lean
definitions:

* strings are Lean `String`s, with the character-level work done on
  `List Char` so that every operation reduces in the kernel;
* the SVN command-line gateway (`svn merge`, `svn status`, `svn resolve`,
  `svn revert`, `svn log`) is modelled as an explicit environment record
  (`SvnEnv`): the data each call would return is a field of the record,
  and the resolve/revert side effects are made observable as an explicit
  trace of `SvnCall` values returned next to the result;
* `path.relative` from Node's standard library is modelled with POSIX
  path semantics (segment-wise relative path between two absolute
  paths), which is the behaviour the tool sees on POSIX hosts.

Sources embedded: `src/types.ts` (data model), `src/utils.ts`
(`relPath`, `normPath`, `isIgnored`, `compressRevisions`, `branchName`,
`groupSummaryByType`), `src/svn.ts` (`svnStatusAfterMerge` status-line
classification), `src/merger.ts` (`mergeRevision`, `run`),
`src/message.ts` (`buildMessage`), and the exit-code logic of
`src/index.ts`.
-/

/-! ## Data model (src/types.ts) -/

/-- `ConflictType` from types.ts: `'text' | 'tree' | 'property'`. -/
inductive ConflictType where
  | text
  | tree
  | property
deriving DecidableEq, Repr

/-- The resolution union from types.ts: `'working' | 'theirs-full'`. -/
inductive Resolution where
  | working
  | theirsFull
deriving DecidableEq, Repr

/-- `ConflictInfo` from types.ts. -/
structure ConflictInfo where
  path : String
  type : ConflictType
  resolution : Resolution
  isDirectory : Bool
  ignored : Bool
deriving DecidableEq, Repr

/-- `RevertedInfo` from types.ts; also the shape of the non-conflict
modification records produced by the status classifier. -/
structure RevertedInfo where
  path : String
  isDirectory : Bool
deriving DecidableEq, Repr

/-- `RevisionMergeResult` from types.ts. -/
structure RevisionMergeResult where
  revision : Nat
  success : Bool
  conflicts : List ConflictInfo
  reverted : List RevertedInfo
  errorMessage : Option String
deriving DecidableEq, Repr

/-- `MergeSummary` from types.ts. -/
structure MergeSummary where
  total : Nat
  succeeded : Nat
  withConflicts : Nat
  failed : Nat
  results : List RevisionMergeResult
deriving DecidableEq, Repr

/-! ## Character-level string helpers

JavaScript string primitives (`trim`, `toLowerCase`, `startsWith`,
`replace`, `split`) are modelled on `List Char` so the kernel can
evaluate them. -/

/-- JavaScript `String.prototype.trim`: strip leading and trailing
whitespace. -/
def jsTrim (cs : List Char) : List Char :=
  ((cs.dropWhile Char.isWhitespace).reverse.dropWhile Char.isWhitespace).reverse

/-- `jsTrim` lifted to `String`. -/
def jsTrimStr (s : String) : String :=
  (jsTrim s.data).asString

/-- JavaScript `a.startsWith(p)`: `p` is an initial segment of `l`. -/
def startsList : List Char → List Char → Bool
  | [], _ => true
  | _ :: _, [] => false
  | a :: as, b :: bs => a == b && startsList as bs

/-- Codepoint-wise lexicographic order on character lists; the model of
the alphabetical comparisons performed with `localeCompare` in the
source. -/
def lexLe : List Char → List Char → Bool
  | [], _ => true
  | _ :: _, [] => false
  | a :: as, b :: bs => if a = b then lexLe as bs else decide (a < b)

/-- The global single-character substitution `replace(/\\/g, '/')`. -/
def backslashToSlash (cs : List Char) : List Char :=
  cs.map fun c => if c = '\\' then '/' else c

/-- The trailing-separator strip `replace(/\/+$/, '')`. -/
def dropTrailingSlashes (cs : List Char) : List Char :=
  (cs.reverse.dropWhile fun c => c == '/').reverse

/-- JavaScript `split('/')` on a character list (empty segments kept,
as in JS). -/
def splitSlash : List Char → List (List Char)
  | [] => [[]]
  | c :: rest =>
    let r := splitSlash rest
    if c = '/' then [] :: r
    else
      match r with
      | [] => [[c]]
      | s :: ss => (c :: s) :: ss

/-! ## Path utilities (src/utils.ts) -/

/-- POSIX path normalisation: drop empty and `.` segments, resolve `..`
against the accumulated prefix (model of Node's `path.resolve` on an
absolute path, segment view). -/
def resolveSegs (segs : List (List Char)) : List (List Char) :=
  segs.foldl
    (fun acc s =>
      if s = [] ∨ s = ['.'] then acc
      else if s = ['.', '.'] then acc.dropLast
      else acc ++ [s])
    []

/-- Drop the longest shared leading run of two segment lists. -/
def dropShared : List (List Char) → List (List Char) → List (List Char) × List (List Char)
  | a :: as, b :: bs =>
    if a = b then dropShared as bs else (a :: as, b :: bs)
  | as, bs => (as, bs)

/-- Model of Node `path.relative(fromP, toP)` for absolute POSIX paths:
resolve both, drop the common segment prefix, then prepend one `..` per
remaining segment of `fromP`. -/
def pathRelative (fromP toP : String) : String :=
  let f := resolveSegs (splitSlash fromP.data)
  let t := resolveSegs (splitSlash toP.data)
  let p := dropShared f t
  String.intercalate "/" ((p.1.map fun _ => "..") ++ p.2.map List.asString)

/-- `relPath` from utils.ts: workspace-relative path with forward
slashes; falls back to the (slash-normalised) absolute path when the
relative path comes back absolute. -/
def relPath (absPath workspace : String) : String :=
  let rel := pathRelative workspace absPath
  if startsList ['/'] rel.data then (backslashToSlash absPath.data).asString
  else (backslashToSlash rel.data).asString

/-- `normPath` from utils.ts: forward slashes, no trailing separator,
lowercase. -/
def normPath (p : String) : String :=
  ((dropTrailingSlashes (backslashToSlash p.data)).map Char.toLower).asString

/-- `isIgnored` from utils.ts: the normalised workspace-relative path
matches a rule exactly or lies strictly inside a rule directory. -/
def isIgnored (absPath workspace : String) (ignorePaths : List String) : Bool :=
  if ignorePaths.isEmpty then false
  else
    let rel := normPath (relPath absPath workspace)
    ignorePaths.any fun pat =>
      let norm := normPath pat
      rel == norm || startsList (norm.data ++ ['/']) rel.data

/-- One compressed piece: a single revision or a `start-end` range. -/
def rangeStr (start stop : Nat) : String :=
  if start = stop then toString start else toString start ++ "-" ++ toString stop

/-- The accumulation loop of `compressRevisions`: walk the sorted tail,
extending the current `start..stop` run or emitting it. -/
def compressParts : List Nat → Nat → Nat → List String
  | [], start, stop => [rangeStr start stop]
  | r :: rest, start, stop =>
    if r = stop + 1 then compressParts rest start r
    else rangeStr start stop :: compressParts rest r r

/-- `compressRevisions` from utils.ts: sort ascending, compress
consecutive runs into ranges, join with `, `. -/
def compressRevisions (revisions : List Nat) : String :=
  match List.insertionSort (· ≤ ·) revisions with
  | [] => ""
  | r :: rest => String.intercalate ", " (compressParts rest r r)

/-- `branchName` from utils.ts: last URL segment after stripping one
trailing slash. -/
def branchName (url : String) : String :=
  let d := if startsList ['/'] url.data.reverse then url.data.dropLast else url.data
  match (splitSlash d).getLast? with
  | some s => s.asString
  | none => url

/-! ## Status classification (src/svn.ts, `svnStatusAfterMerge`) -/

/-- Classification of one `svn status` line, exactly as in
`svnStatusAfterMerge`: lines shorter than 2 characters are skipped;
column 7 (index 6, `' '` when the line is short) flags a tree conflict,
else column 1 (index 0) flags a text conflict, else column 2 (index 1)
flags a property conflict; otherwise the line is a plain modification
unless clean (`' '`), unversioned (`'?'`) or external (`'X'`). The path
is the trimmed text from index 8 on; a line with an empty path is
skipped. Directory detection is filesystem-dependent and passed in as
`isDirF`. -/
def classifyLine (isDirF : String → Bool) (line : List Char) :
    Option (Sum ConflictInfo RevertedInfo) :=
  match line with
  | c0 :: c1 :: _ =>
    let col6 := line.getD 6 ' '
    let filePath := (jsTrim (line.drop 8)).asString
    if filePath = "" then none
    else if col6 = 'C' then
      some (Sum.inl
        { path := filePath, type := ConflictType.tree, resolution := Resolution.working,
          isDirectory := isDirF filePath, ignored := false })
    else if c0 = 'C' then
      some (Sum.inl
        { path := filePath, type := ConflictType.text, resolution := Resolution.theirsFull,
          isDirectory := isDirF filePath, ignored := false })
    else if c1 = 'C' then
      some (Sum.inl
        { path := filePath, type := ConflictType.property, resolution := Resolution.theirsFull,
          isDirectory := isDirF filePath, ignored := false })
    else if c0 = ' ' ∨ c0 = '?' ∨ c0 = 'X' then none
    else some (Sum.inr { path := filePath, isDirectory := isDirF filePath })
  | _ => none

/-- `svnStatusAfterMerge` over a status report split into lines:
conflicts and non-conflict modifications, in report order. -/
def svnStatusAfterMerge (isDirF : String → Bool) (lines : List (List Char)) :
    List ConflictInfo × List RevertedInfo :=
  (lines.filterMap fun l =>
     match classifyLine isDirF l with
     | some (Sum.inl c) => some c
     | _ => none,
   lines.filterMap fun l =>
     match classifyLine isDirF l with
     | some (Sum.inr m) => some m
     | _ => none)

/-! ## Revision merge engine (src/merger.ts) -/

/-- An observable gateway side effect issued by `mergeRevision`.
`revert` corresponds to `svn revert --depth infinity` (recursive). -/
inductive SvnCall where
  | resolve (path : String) (accept : Resolution)
  | revert (path : String)
deriving DecidableEq, Repr

/-- Environment record standing for the SVN gateway during one
revision: the merge outcome, the classified status of the working copy
afterwards, and the success of each resolve/revert invocation. -/
structure SvnEnv where
  mergeStdout : String
  mergeStderr : String
  mergeExit : Nat
  statusConflicts : List ConflictInfo
  statusModifications : List RevertedInfo
  resolveOk : String → Bool
  revertOk : String → Bool

/-- `mergeRevision` from merger.ts, with the issued resolve/revert
calls returned as an explicit trace. A fatal merge (nonzero exit, blank
stdout, nonblank stderr) aborts the revision; otherwise conflicts get
the ignore override applied and are resolved, and ignored non-conflict
modifications are reverted (kept in `reverted` only when the revert
succeeded). -/
def mergeRevision (revision : Nat) (workspace : String) (ignorePaths : List String)
    (env : SvnEnv) : RevisionMergeResult × List SvnCall :=
  if env.mergeExit ≠ 0 ∧ jsTrimStr env.mergeStdout = "" ∧ jsTrimStr env.mergeStderr ≠ "" then
    ({ revision := revision, success := false, conflicts := [], reverted := [],
       errorMessage := some (jsTrimStr env.mergeStderr) }, [])
  else
    let conflicts := env.statusConflicts.map fun c =>
      { c with
        resolution :=
          if isIgnored c.path workspace ignorePaths then Resolution.working else c.resolution,
        ignored := isIgnored c.path workspace ignorePaths }
    let resolveCalls := conflicts.map fun c => SvnCall.resolve c.path c.resolution
    let conflictPaths := conflicts.map fun c => c.path
    let revertTargets := env.statusModifications.filter fun m =>
      !conflictPaths.contains m.path && isIgnored m.path workspace ignorePaths
    let revertCalls := revertTargets.map fun m => SvnCall.revert m.path
    let reverted := revertTargets.filter fun m => env.revertOk m.path
    ({ revision := revision, success := true, conflicts := conflicts, reverted := reverted,
       errorMessage := none }, resolveCalls ++ revertCalls)

/-! ## Run orchestrator (src/merger.ts, `run`) -/

/-- The revision loop of `run`: one `mergeRevision` per input revision,
in input order; `envs i` is the gateway state seen by the i-th
iteration. -/
def runResults (revisions : List Nat) (workspace : String) (ignorePaths : List String)
    (envs : Nat → SvnEnv) : List RevisionMergeResult :=
  match revisions with
  | [] => []
  | rev :: rest =>
    (mergeRevision rev workspace ignorePaths (envs 0)).1 ::
      runResults rest workspace ignorePaths fun i => envs (i + 1)

/-- The body of the summary-count loop at the end of `run`; the
accumulator is `(succeeded, withConflicts, failed)`. -/
def tallyStep (acc : Nat × Nat × Nat) (r : RevisionMergeResult) : Nat × Nat × Nat :=
  if !r.success then (acc.1, acc.2.1, acc.2.2 + 1)
  else if r.conflicts.length > 0 then (acc.1, acc.2.1 + 1, acc.2.2)
  else (acc.1 + 1, acc.2.1, acc.2.2)

/-- The summary-count loop at the end of `run`. -/
def tally (results : List RevisionMergeResult) : Nat × Nat × Nat :=
  results.foldl tallyStep (0, 0, 0)

/-- `run` from merger.ts: process every revision in order and assemble
the `MergeSummary`. -/
def run (revisions : List Nat) (workspace : String) (ignorePaths : List String)
    (envs : Nat → SvnEnv) : MergeSummary :=
  let results := runResults revisions workspace ignorePaths envs
  let t := tally results
  { total := revisions.length, succeeded := t.1, withConflicts := t.2.1, failed := t.2.2,
    results := results }

/-! ## Summary aggregation (src/utils.ts, `groupSummaryByType`) -/

/-- `SummaryEntry` from utils.ts. -/
structure SummaryEntry where
  type : ConflictType
  isDirectory : Bool
  relPath : String
  resolution : String
  ignored : Bool
deriving DecidableEq, Repr

/-- The template-literal rendering of a `ConflictType` value. -/
def typeStr : ConflictType → String
  | ConflictType.text => "text"
  | ConflictType.tree => "tree"
  | ConflictType.property => "property"

/-- The string form of a resolution value. -/
def resolutionStr : Resolution → String
  | Resolution.working => "working"
  | Resolution.theirsFull => "theirs-full"

/-- The dedup key built in `groupSummaryByType`. -/
def entryKey (e : SummaryEntry) : String :=
  typeStr e.type ++ ":" ++ e.relPath

/-- Build the `SummaryEntry` that `groupSummaryByType` pushes for one
conflict. -/
def toEntry (workspace : String) (c : ConflictInfo) : SummaryEntry :=
  { type := c.type, isDirectory := c.isDirectory, relPath := relPath c.path workspace,
    resolution := if c.ignored then "ignored" else resolutionStr c.resolution,
    ignored := c.ignored }

/-- The `seen`-set dedup loop of `groupSummaryByType`: keep the first
entry for each key, in encounter order. -/
def dedupKeyed (seen : List String) : List SummaryEntry → List SummaryEntry
  | [] => []
  | e :: rest =>
    if seen.contains (entryKey e) then dedupKeyed seen rest
    else e :: dedupKeyed (entryKey e :: seen) rest

/-- The comparator used to sort each bucket: non-ignored entries first,
then alphabetical by relative path. -/
def entryLeB (a b : SummaryEntry) : Bool :=
  (!a.ignored && b.ignored) || (a.ignored == b.ignored && lexLe a.relPath.data b.relPath.data)

/-- The three buckets of the aggregated summary, in the fixed report
order: tree, then text, then property. -/
structure GroupedSummary where
  tree : List SummaryEntry
  text : List SummaryEntry
  property : List SummaryEntry
deriving Repr

/-- `groupSummaryByType` from utils.ts: flatten every result's
conflicts, deduplicate by `type:relPath` key, split into the three
type buckets, and sort each bucket with `entryLeB`. -/
def groupSummaryByType (results : List RevisionMergeResult) (workspace : String) :
    GroupedSummary :=
  let entries := dedupKeyed []
    (results.flatMap fun r => r.conflicts.map (toEntry workspace))
  { tree := List.insertionSort (fun a b => entryLeB a b = true)
      (entries.filter fun e => e.type = ConflictType.tree),
    text := List.insertionSort (fun a b => entryLeB a b = true)
      (entries.filter fun e => e.type = ConflictType.text),
    property := List.insertionSort (fun a b => entryLeB a b = true)
      (entries.filter fun e => e.type = ConflictType.property) }

/-! ## Run-end reporting (src/index.ts, src/message.ts) -/

/-- `hasActiveConflicts` from index.ts: some result has a non-ignored
conflict. -/
def hasActiveConflicts (summary : MergeSummary) : Bool :=
  summary.results.any fun r => r.conflicts.any fun c => !c.ignored

/-- The process exit status chosen at the end of index.ts: the
auto-commit block may exit with 1 when the commit itself fails;
otherwise the final exit is 1 exactly when some revision failed.
`shouldCommit` is `-C`/config `commit`; `commitOk` is whether
`svn commit` succeeded. -/
def finalExitCode (summary : MergeSummary) (shouldCommit commitOk : Bool) : Nat :=
  let finalExit := if summary.failed > 0 then 1 else 0
  if shouldCommit then
    if summary.failed > 0 || hasActiveConflicts summary then finalExit
    else if summary.succeeded == 0 then finalExit
    else if commitOk then finalExit
    else 1
  else finalExit

/-- `buildMessage` from message.ts: header with the compressed range of
the successfully merged revisions, then per merged revision (ascending)
its log body or a placeholder, each followed by the `........`
separator. `logMap` models the `svnLogBatch` result (missing entries
are the empty string). -/
def buildMessage (summary : MergeSummary) (fromUrl : String) (logMap : Nat → String) : String :=
  let branch := branchName fromUrl
  let mergedRevisions :=
    List.insertionSort (· ≤ ·) ((summary.results.filter fun r => r.success).map fun r => r.revision)
  let header :=
    "Merged revision(s) " ++ compressRevisions mergedRevisions ++ " from " ++ branch ++ ":"
  let lines := header :: mergedRevisions.flatMap fun rev =>
    let body := logMap rev
    [if body ≠ "" then body else "(no log message for r" ++ toString rev ++ ")", "........"]
  String.intercalate "\n" lines ++ "\n"

/-! ## Auxiliary definitions for the theorems below -/

/-- Recover the conflict type from a dedup key. -/
def decodeType (s : String) : Option ConflictType :=
  if startsList "tree:".data s.data then some ConflictType.tree
  else if startsList "text:".data s.data then some ConflictType.text
  else if startsList "property:".data s.data then some ConflictType.property
  else none

/-- The bucket of a grouped summary holding a given conflict type. -/
def bucketOf (g : GroupedSummary) : ConflictType → List SummaryEntry
  | ConflictType.tree => g.tree
  | ConflictType.text => g.text
  | ConflictType.property => g.property

/-- A fatal merge environment: exit code 1, blank stdout, diagnostic on
stderr. -/
def envFatal : SvnEnv :=
  { mergeStdout := "", mergeStderr := "svn: E155004: working copy locked", mergeExit := 1,
    statusConflicts := [], statusModifications := [],
    resolveOk := fun _ => true, revertOk := fun _ => true }

/-- A clean merge of one conflicted ignore-matched path. -/
def envConf : SvnEnv :=
  { mergeStdout := "C    /w/gen/a", mergeStderr := "", mergeExit := 0,
    statusConflicts :=
      [{ path := "/w/gen/a", type := ConflictType.text, resolution := Resolution.theirsFull,
         isDirectory := false, ignored := false }],
    statusModifications := [],
    resolveOk := fun _ => true, revertOk := fun _ => true }

/-- A clean merge that modified one ignore-matched path without
conflict. -/
def envMod : SvnEnv :=
  { mergeStdout := "U    /w/gen/b", mergeStderr := "", mergeExit := 0,
    statusConflicts := [], statusModifications := [{ path := "/w/gen/b", isDirectory := false }],
    resolveOk := fun _ => true, revertOk := fun _ => true }

/-- A merge environment for a fully clean revision: exit 0, no
conflicts, no modifications. -/
def envClean : SvnEnv :=
  { mergeStdout := "U    /w/a.txt", mergeStderr := "", mergeExit := 0,
    statusConflicts := [], statusModifications := [],
    resolveOk := fun _ => true, revertOk := fun _ => true }

/-- Two revision results reporting the same text conflict at the same
path. -/
def resultsDup : List RevisionMergeResult :=
  [{ revision := 1, success := true,
     conflicts := [{ path := "/w/a.txt", type := ConflictType.text,
                     resolution := Resolution.theirsFull, isDirectory := false,
                     ignored := false }],
     reverted := [], errorMessage := none },
   { revision := 2, success := true,
     conflicts := [{ path := "/w/a.txt", type := ConflictType.text,
                     resolution := Resolution.theirsFull, isDirectory := false,
                     ignored := false }],
     reverted := [], errorMessage := none }]

/-! ## Helper lemmas -/

/-- The revision recorded in a `mergeRevision` result is the input
revision. -/
theorem mergeRevision_revision (rev : Nat) (ws : String) (ip : List String) (env : SvnEnv) :
    (mergeRevision rev ws ip env).1.revision = rev := by
  unfold mergeRevision
  split <;> rfl

/-- Every element of `runResults` is the result of some `mergeRevision`
call. -/
theorem mem_runResults {res : RevisionMergeResult} (ws : String) (ip : List String) :
    ∀ (revs : List Nat) (envs : Nat → SvnEnv),
      res ∈ runResults revs ws ip envs →
      ∃ rev env, res = (mergeRevision rev ws ip env).1 := by
  intro revs
  induction revs with
  | nil => intro envs h; simp [runResults] at h
  | cons rev rest ih =>
    intro envs h
    rw [runResults] at h
    rcases List.mem_cons.mp h with h1 | h2
    · exact ⟨rev, envs 0, h1⟩
    · exact ih _ h2

/-- Ignore-policy invariant on the conflicts returned by one
`mergeRevision` call. -/
theorem mergeRevision_conflict_inv (rev : Nat) (ws : String) (ip : List String) (env : SvnEnv) :
    ∀ c ∈ (mergeRevision rev ws ip env).1.conflicts,
      (isIgnored c.path ws ip = true → c.resolution = Resolution.working ∧ c.ignored = true) ∧
      (c.ignored = true → c.resolution = Resolution.working) := by
  intro c hc
  unfold mergeRevision at hc
  split at hc
  · simp at hc
  · simp only [List.mem_map] at hc
    obtain ⟨c0, _, rfl⟩ := hc
    refine ⟨fun hig => ?_, fun hig => ?_⟩
    · simp only [hig]
      simp
    · by_cases h : isIgnored c0.path ws ip = true
      · simp [h]
      · simp only [Bool.not_eq_true] at h
        simp [h] at hig

/-! ## Claim theorems -/

/-- C1: a status line whose tree-conflict column (index 6) is `C`
classifies as a Tree conflict with default resolution `working`,
regardless of the content and property columns; otherwise a `C` in the
content column (index 0) gives a Text conflict with `theirs-full`, and
otherwise a `C` in the property column (index 1) gives a Property
conflict with `theirs-full`. -/
theorem statusClassifier_tree_precedence (isDirF : String → Bool) (c0 c1 : Char)
    (rest : List Char)
    (hfp : (jsTrim ((c0 :: c1 :: rest).drop 8)).asString ≠ "") :
    ((c0 :: c1 :: rest).getD 6 ' ' = 'C' →
      classifyLine isDirF (c0 :: c1 :: rest) =
        some (Sum.inl
          { path := (jsTrim ((c0 :: c1 :: rest).drop 8)).asString, type := ConflictType.tree,
            resolution := Resolution.working,
            isDirectory := isDirF ((jsTrim ((c0 :: c1 :: rest).drop 8)).asString),
            ignored := false })) ∧
    ((c0 :: c1 :: rest).getD 6 ' ' ≠ 'C' → c0 = 'C' →
      classifyLine isDirF (c0 :: c1 :: rest) =
        some (Sum.inl
          { path := (jsTrim ((c0 :: c1 :: rest).drop 8)).asString, type := ConflictType.text,
            resolution := Resolution.theirsFull,
            isDirectory := isDirF ((jsTrim ((c0 :: c1 :: rest).drop 8)).asString),
            ignored := false })) ∧
    ((c0 :: c1 :: rest).getD 6 ' ' ≠ 'C' → c0 ≠ 'C' → c1 = 'C' →
      classifyLine isDirF (c0 :: c1 :: rest) =
        some (Sum.inl
          { path := (jsTrim ((c0 :: c1 :: rest).drop 8)).asString, type := ConflictType.property,
            resolution := Resolution.theirsFull,
            isDirectory := isDirF ((jsTrim ((c0 :: c1 :: rest).drop 8)).asString),
            ignored := false })) := by
  refine ⟨fun h6 => ?_, fun h6 h0 => ?_, fun h6 h0 h1 => ?_⟩
  · simp at hfp h6
    simp [classifyLine, hfp, h6]
  · simp at hfp h6
    simp [classifyLine, hfp, h6, h0]
  · simp at hfp h6
    simp [classifyLine, hfp, h6, h0, h1]

/-- Witness for C1 at a line whose content, property and tree columns
are all `C`: the tree classification wins. -/
theorem statusClassifier_tree_precedence_witness :
    classifyLine (fun _ => false) ('C' :: 'C' :: ' ' :: ' ' :: ' ' :: ' ' :: 'C' :: ' ' :: 'f' :: []) =
      some (Sum.inl
        { path := (jsTrim ((('C' :: 'C' :: ' ' :: ' ' :: ' ' :: ' ' :: 'C' :: ' ' :: 'f' :: [])).drop 8)).asString,
          type := ConflictType.tree, resolution := Resolution.working,
          isDirectory := false, ignored := false }) :=
  (statusClassifier_tree_precedence (fun _ => false) 'C' 'C'
    (' ' :: ' ' :: ' ' :: ' ' :: 'C' :: ' ' :: 'f' :: []) (by decide)).1 (by decide)

/-- C3: a merge with nonzero exit code, blank stdout and nonblank
stderr is fatal — the revision result is `success := false` with that
stderr as the error message, no conflicts, no reverts, and no
resolve/revert call is issued; any other merge outcome is non-fatal and
the engine proceeds to conflict classification (the result is a success
carrying the ignore-adjusted classified conflicts). -/
theorem mergeEngine_fatal_error_handling (rev : Nat) (ws : String) (ip : List String)
    (env : SvnEnv) :
    (env.mergeExit ≠ 0 → jsTrimStr env.mergeStdout = "" → jsTrimStr env.mergeStderr ≠ "" →
      mergeRevision rev ws ip env =
        ({ revision := rev, success := false, conflicts := [], reverted := [],
           errorMessage := some (jsTrimStr env.mergeStderr) }, [])) ∧
    (¬(env.mergeExit ≠ 0 ∧ jsTrimStr env.mergeStdout = "" ∧ jsTrimStr env.mergeStderr ≠ "") →
      (mergeRevision rev ws ip env).1.success = true ∧
      (mergeRevision rev ws ip env).1.errorMessage = none ∧
      (mergeRevision rev ws ip env).1.conflicts =
        env.statusConflicts.map fun c =>
          { c with
            resolution :=
              if isIgnored c.path ws ip then Resolution.working else c.resolution,
            ignored := isIgnored c.path ws ip }) := by
  constructor
  · intro h1 h2 h3
    rw [mergeRevision, if_pos ⟨h1, h2, h3⟩]
  · intro h
    rw [mergeRevision, if_neg h]
    exact ⟨rfl, rfl, rfl⟩

/-- Witness for C3: revision 100 with exit code 1, empty stdout and
nonempty stderr yields the fatal result and an empty call trace. -/
theorem mergeEngine_fatal_error_handling_witness :
    mergeRevision 100 "/w" [] envFatal =
      ({ revision := 100, success := false, conflicts := [], reverted := [],
         errorMessage := some (jsTrimStr envFatal.mergeStderr) }, []) :=
  (mergeEngine_fatal_error_handling 100 "/w" [] envFatal).1 (by decide) (by decide) (by decide)

/-- C2: in every revision result produced by a run, a conflict at an
ignore-matched path has its resolution forced to `working` and is
marked ignored; consequently every conflict record with
`ignored = true` has resolution `working`. -/
theorem mergeEngine_ignored_forces_local (revs : List Nat) (ws : String) (ip : List String)
    (envs : Nat → SvnEnv) :
    ∀ res ∈ (run revs ws ip envs).results, ∀ c ∈ res.conflicts,
      (isIgnored c.path ws ip = true → c.resolution = Resolution.working ∧ c.ignored = true) ∧
      (c.ignored = true → c.resolution = Resolution.working) := by
  intro res hres c hc
  obtain ⟨rev, env, rfl⟩ := mem_runResults ws ip revs envs hres
  exact mergeRevision_conflict_inv rev ws ip env c hc

/-- Witness for C2: the text conflict at the ignored path `/w/gen/a`
comes back with resolution `working` and `ignored = true`. -/
theorem mergeEngine_ignored_forces_local_witness :
    (isIgnored "/w/gen/a" "/w" ["gen"] = true →
      (⟨"/w/gen/a", ConflictType.text, Resolution.working, false, true⟩ : ConflictInfo).resolution
          = Resolution.working ∧
      (⟨"/w/gen/a", ConflictType.text, Resolution.working, false, true⟩ : ConflictInfo).ignored
          = true) ∧
    ((⟨"/w/gen/a", ConflictType.text, Resolution.working, false, true⟩ : ConflictInfo).ignored
        = true →
      (⟨"/w/gen/a", ConflictType.text, Resolution.working, false, true⟩ : ConflictInfo).resolution
          = Resolution.working) :=
  mergeEngine_ignored_forces_local [7] "/w" ["gen"] (fun _ => envConf)
    (mergeRevision 7 "/w" ["gen"] envConf).1 (by decide)
    ⟨"/w/gen/a", ConflictType.text, Resolution.working, false, true⟩ (by decide)

/-- C4: a status line with no conflict marker whose content column is
not clean (`' '`), unversioned (`'?'`) or external (`'X'`) emits a
modification record; and in a non-fatal revision, every classified
modification whose path is outside the conflict-path set and
ignore-matched gets a (recursive) revert call — it lands in the
`reverted` list exactly when the revert succeeded. -/
theorem statusClassifier_modifications_reverted :
    (∀ (isDirF : String → Bool) (c0 c1 : Char) (rest : List Char),
      (jsTrim ((c0 :: c1 :: rest).drop 8)).asString ≠ "" →
      (c0 :: c1 :: rest).getD 6 ' ' ≠ 'C' → c0 ≠ 'C' → c1 ≠ 'C' →
      c0 ≠ ' ' → c0 ≠ '?' → c0 ≠ 'X' →
      classifyLine isDirF (c0 :: c1 :: rest) =
        some (Sum.inr
          { path := (jsTrim ((c0 :: c1 :: rest).drop 8)).asString,
            isDirectory := isDirF ((jsTrim ((c0 :: c1 :: rest).drop 8)).asString) })) ∧
    (∀ (rev : Nat) (ws : String) (ip : List String) (env : SvnEnv),
      ¬(env.mergeExit ≠ 0 ∧ jsTrimStr env.mergeStdout = "" ∧ jsTrimStr env.mergeStderr ≠ "") →
      ∀ m ∈ env.statusModifications,
        (env.statusConflicts.map fun c => c.path).contains m.path = false →
        isIgnored m.path ws ip = true →
        SvnCall.revert m.path ∈ (mergeRevision rev ws ip env).2 ∧
        (env.revertOk m.path = true → m ∈ (mergeRevision rev ws ip env).1.reverted) ∧
        (env.revertOk m.path = false → m ∉ (mergeRevision rev ws ip env).1.reverted)) := by
  constructor
  · intro isDirF c0 c1 rest hfp h6 h0 h1 hsp hq hx
    simp at hfp h6
    simp [classifyLine, hfp, h6, h0, h1, hsp, hq, hx]
  · intro rev ws ip env hnf m hm hpath hig
    rw [mergeRevision, if_neg hnf]
    simp only
    have hpaths :
        (List.map (fun c => c.path) (env.statusConflicts.map fun c =>
          { c with
            resolution :=
              if isIgnored c.path ws ip then Resolution.working else c.resolution,
            ignored := isIgnored c.path ws ip })) =
        env.statusConflicts.map fun c => c.path := by
      simp [List.map_map]
    refine ⟨?_, fun hok => ?_, fun hko => ?_⟩
    · refine List.mem_append.mpr (Or.inr ?_)
      refine List.mem_map.mpr ⟨m, List.mem_filter.mpr ⟨hm, ?_⟩, rfl⟩
      simp only [hpaths, hpath, hig]
      rfl
    · refine List.mem_filter.mpr ⟨List.mem_filter.mpr ⟨hm, ?_⟩, hok⟩
      simp only [hpaths, hpath, hig]
      rfl
    · intro hmem
      have := (List.mem_filter.mp hmem).2
      rw [hko] at this
      exact Bool.false_ne_true this

/-- Witness for C4: a plain `M` status line classifies as a
modification, and the ignore-matched modification `/w/gen/b` is
reverted and recorded. -/
theorem statusClassifier_modifications_reverted_witness :
    classifyLine (fun _ => false) ('M' :: ' ' :: ' ' :: ' ' :: ' ' :: ' ' :: ' ' :: ' ' :: 'f' :: []) =
      some (Sum.inr
        { path := (jsTrim ((('M' :: ' ' :: ' ' :: ' ' :: ' ' :: ' ' :: ' ' :: ' ' :: 'f' :: [])).drop 8)).asString,
          isDirectory := false }) ∧
    (SvnCall.revert "/w/gen/b" ∈ (mergeRevision 9 "/w" ["gen"] envMod).2 ∧
      ((fun (_ : String) => true) "/w/gen/b" = true →
        ({ path := "/w/gen/b", isDirectory := false } : RevertedInfo) ∈
          (mergeRevision 9 "/w" ["gen"] envMod).1.reverted) ∧
      ((fun (_ : String) => true) "/w/gen/b" = false →
        ({ path := "/w/gen/b", isDirectory := false } : RevertedInfo) ∉
          (mergeRevision 9 "/w" ["gen"] envMod).1.reverted)) :=
  ⟨statusClassifier_modifications_reverted.1 (fun _ => false) 'M' ' '
      (' ' :: ' ' :: ' ' :: ' ' :: ' ' :: ' ' :: 'f' :: [])
      (by decide) (by decide) (by decide) (by decide) (by decide) (by decide) (by decide),
   statusClassifier_modifications_reverted.2 9 "/w" ["gen"] envMod (by decide)
      { path := "/w/gen/b", isDirectory := false } (by decide) (by decide) (by decide)⟩

/-- The summary-count fold, with a general accumulator. -/
theorem tally_go (l : List RevisionMergeResult) :
    ∀ a b c : Nat,
      l.foldl tallyStep (a, b, c) =
      (a + l.countP (fun r => r.success && decide (r.conflicts.length = 0)),
       b + l.countP (fun r => r.success && decide (0 < r.conflicts.length)),
       c + l.countP (fun r => !r.success)) := by
  induction l with
  | nil => intro a b c; simp
  | cons r rest ih =>
    intro a b c
    by_cases hs : r.success = true
    · by_cases hc : r.conflicts = []
      · have hstep : tallyStep (a, b, c) r = (a + 1, b, c) := by
          simp [tallyStep, hs, hc]
        rw [List.foldl_cons, hstep, ih]
        simp [List.countP_cons, hs, hc, Prod.mk.injEq] <;> omega
      · have hlen : 0 < r.conflicts.length := List.length_pos.mpr hc
        have hstep : tallyStep (a, b, c) r = (a, b + 1, c) := by
          simp [tallyStep, hs, hc]
        rw [List.foldl_cons, hstep, ih]
        simp [List.countP_cons, hs, hc, hlen, Prod.mk.injEq] <;> omega
    · have hstep : tallyStep (a, b, c) r = (a, b, c + 1) := by
        simp [tallyStep, hs]
      rw [List.foldl_cons, hstep, ih]
      simp [List.countP_cons, hs, Prod.mk.injEq] <;> omega

/-- Every result satisfies exactly one of the three bucket predicates,
so the three counts sum to the number of results. -/
theorem bucket_partition (l : List RevisionMergeResult) :
    l.countP (fun r => r.success && decide (r.conflicts.length = 0)) +
      l.countP (fun r => r.success && decide (0 < r.conflicts.length)) +
      l.countP (fun r => !r.success) = l.length := by
  induction l with
  | nil => simp
  | cons r rest ih =>
    by_cases hs : r.success = true
    · by_cases hc : r.conflicts = []
      · simp only [List.countP_cons] at ih ⊢
        simp [hs, hc] at ih ⊢ <;> omega
      · have hlen : 0 < r.conflicts.length := List.length_pos.mpr hc
        simp only [List.countP_cons] at ih ⊢
        simp [hs, hc, hlen] at ih ⊢ <;> omega
    · simp only [List.countP_cons] at ih ⊢
      simp [hs] at ih ⊢ <;> omega

/-- The result list of a run has one entry per input revision. -/
theorem runResults_length (ws : String) (ip : List String) :
    ∀ (revs : List Nat) (envs : Nat → SvnEnv),
      (runResults revs ws ip envs).length = revs.length := by
  intro revs
  induction revs with
  | nil => intro envs; rfl
  | cons rev rest ih => intro envs; simp [runResults, ih]

/-- The i-th run result comes from merging the i-th input revision. -/
theorem runResults_getD (ws : String) (ip : List String) (d : RevisionMergeResult) :
    ∀ (revs : List Nat) (envs : Nat → SvnEnv) (i : Nat), i < revs.length →
      (runResults revs ws ip envs).getD i d =
        (mergeRevision (revs.getD i 0) ws ip (envs i)).1 := by
  intro revs
  induction revs with
  | nil => intro envs i h; simp at h
  | cons rev rest ih =>
    intro envs i h
    match i with
    | 0 => rfl
    | Nat.succ j =>
      have hj : j < rest.length := by simpa using h
      simpa [runResults] using ih (fun k => envs (k + 1)) j hj

/-- C6: after a run over n revisions the summary has `total = n`,
the three buckets count exactly the failed results, the successes with
at least one conflict (ignored or not), and the successes with no
conflict, and the bucket counts sum to the total. -/
theorem runSummary_counts (revs : List Nat) (ws : String) (ip : List String)
    (envs : Nat → SvnEnv) :
    (run revs ws ip envs).total = revs.length ∧
    (run revs ws ip envs).results.length = (run revs ws ip envs).total ∧
    (run revs ws ip envs).failed =
      (run revs ws ip envs).results.countP (fun r => !r.success) ∧
    (run revs ws ip envs).withConflicts =
      (run revs ws ip envs).results.countP
        (fun r => r.success && decide (0 < r.conflicts.length)) ∧
    (run revs ws ip envs).succeeded =
      (run revs ws ip envs).results.countP
        (fun r => r.success && decide (r.conflicts.length = 0)) ∧
    (run revs ws ip envs).succeeded + (run revs ws ip envs).withConflicts +
        (run revs ws ip envs).failed = (run revs ws ip envs).total := by
  have hres : (run revs ws ip envs).results = runResults revs ws ip envs := rfl
  have hlen := runResults_length ws ip revs envs
  have htally := tally_go (runResults revs ws ip envs) 0 0 0
  have hsucc : (run revs ws ip envs).succeeded =
      (runResults revs ws ip envs).countP
        (fun r => r.success && decide (r.conflicts.length = 0)) := by
    show (tally (runResults revs ws ip envs)).1 = _
    rw [tally, htally]
    exact Nat.zero_add _
  have hconf : (run revs ws ip envs).withConflicts =
      (runResults revs ws ip envs).countP
        (fun r => r.success && decide (0 < r.conflicts.length)) := by
    show (tally (runResults revs ws ip envs)).2.1 = _
    rw [tally, htally]
    exact Nat.zero_add _
  have hfail : (run revs ws ip envs).failed =
      (runResults revs ws ip envs).countP (fun r => !r.success) := by
    show (tally (runResults revs ws ip envs)).2.2 = _
    rw [tally, htally]
    exact Nat.zero_add _
  refine ⟨rfl, hlen, hfail, hconf, hsucc, ?_⟩
  rw [hsucc, hconf, hfail]
  show _ = revs.length
  rw [bucket_partition, hlen]

/-- C7: the i-th result of a run records the i-th input revision, and
every input revision yields exactly one result (failures included). -/
theorem runOrchestrator_order (revs : List Nat) (ws : String) (ip : List String)
    (envs : Nat → SvnEnv) (i : Nat) (h : i < revs.length) :
    (run revs ws ip envs).results.length = revs.length ∧
    ((run revs ws ip envs).results.getD i
        { revision := 0, success := false, conflicts := [], reverted := [],
          errorMessage := none }).revision = revs.getD i 0 := by
  refine ⟨runResults_length ws ip revs envs, ?_⟩
  have hres : (run revs ws ip envs).results = runResults revs ws ip envs := rfl
  rw [hres, runResults_getD ws ip _ revs envs i h, mergeRevision_revision]

/-- Witness for C7 on a two-revision run whose first revision fails:
the second revision is still attempted and sits at index 1. -/
theorem runOrchestrator_order_witness :
    (run [11, 22] "/w" [] (fun i => if i = 0 then envFatal else envMod)).results.length = 2 ∧
    ((run [11, 22] "/w" [] (fun i => if i = 0 then envFatal else envMod)).results.getD 1
        { revision := 0, success := false, conflicts := [], reverted := [],
          errorMessage := none }).revision = 22 := by
  simpa using
    runOrchestrator_order [11, 22] "/w" [] (fun i => if i = 0 then envFatal else envMod) 1
      (by decide)

/-- C5: `isIgnored` is true exactly when the normalised
workspace-relative path equals some normalised rule or extends it past
a `/` boundary; it is always false on an empty rule list; it accepts an
exact match and a nested path, and rejects a sibling sharing only a
string prefix (`src/gen` vs `src/generated/x`). -/
theorem ignoreMatcher_spec :
    (∀ (absPath workspace : String) (rules : List String),
      isIgnored absPath workspace rules = true ↔
        ∃ rule ∈ rules,
          normPath (relPath absPath workspace) = normPath rule ∨
          startsList (normPath rule ++ "/").data (normPath (relPath absPath workspace)).data
            = true) ∧
    (∀ absPath workspace : String, isIgnored absPath workspace [] = false) ∧
    isIgnored "/w/src/gen" "/w" ["src/gen"] = true ∧
    isIgnored "/w/src/gen/a.txt" "/w" ["src/gen"] = true ∧
    isIgnored "/w/src/generated/x" "/w" ["src/gen"] = false := by
  refine ⟨?_, fun absPath workspace => rfl, by decide, by decide, by decide⟩
  intro absPath workspace rules
  match rules with
  | [] => simp [isIgnored]
  | r0 :: rest =>
    rw [isIgnored]
    rw [if_neg (by simp)]
    simp only [List.any_eq_true, Bool.or_eq_true, beq_iff_eq, String.data_append]

/-- C9 counterexample: a run of one revision that merges cleanly
(`failed = 0`), with auto-commit requested and the commit itself
failing, exits with a nonzero status — so a nonzero exit status does
not imply a fatally failed revision. -/
theorem exitCode_counterexample :
    finalExitCode (run [100] "/w" [] fun _ => envClean) true false ≠ 0 ∧
    ¬ 0 < (run [100] "/w" [] fun _ => envClean).failed := by
  decide

/-- C9 amended: after a completed run the exit status is nonzero iff
some revision failed fatally, or auto-commit was enabled, actually
attempted (no failure, no active conflict, at least one success) and
the commit itself failed. -/
theorem exitCode_amended (summary : MergeSummary) (shouldCommit commitOk : Bool) :
    finalExitCode summary shouldCommit commitOk ≠ 0 ↔
      (0 < summary.failed ∨
        (shouldCommit = true ∧ summary.failed = 0 ∧ hasActiveConflicts summary = false ∧
          0 < summary.succeeded ∧ commitOk = false)) := by
  rw [finalExitCode]
  rcases shouldCommit with _ | _
  · simp only [if_false, Bool.false_eq_true, false_and, or_false]
    split <;> rename_i h <;> simp <;> omega
  · rcases commitOk with _ | _
    · by_cases hf : 0 < summary.failed
      · have : summary.failed > 0 := hf
        simp [this, hf]
      · have hf0 : summary.failed = 0 := by omega
        rcases hact : hasActiveConflicts summary with _ | _
        · by_cases hsucc : summary.succeeded = 0
          · simp [hf0, hact, hsucc]
          · simp [hf0, hact, hsucc]
            omega
        · simp [hf0, hact]
    · by_cases hf : 0 < summary.failed
      · have : summary.failed > 0 := hf
        simp [this, hf]
      · have hf0 : summary.failed = 0 := by omega
        rcases hact : hasActiveConflicts summary with _ | _
        · by_cases hsucc : summary.succeeded = 0
          · simp [hf0, hact, hsucc]
          · simp [hf0, hact, hsucc]
        · simp [hf0, hact]

/-- C10: the merge message covers exactly the successfully merged
revisions — the revision list used for the header's compressed range
and for the body is sorted ascending and is a permutation of the
successful results' revisions (failed revisions appear nowhere) — and
the message is the header followed, per merged revision in ascending
order, by its log body (or the placeholder when the body is empty) and
the `........` separator. -/
theorem mergeMessage_successful_revisions (summary : MergeSummary) (fromUrl : String)
    (logMap : Nat → String) :
    List.Sorted (· ≤ ·)
      (List.insertionSort (· ≤ ·)
        ((summary.results.filter fun r => r.success).map fun r => r.revision)) ∧
    (List.insertionSort (· ≤ ·)
        ((summary.results.filter fun r => r.success).map fun r => r.revision)).Perm
      ((summary.results.filter fun r => r.success).map fun r => r.revision) ∧
    buildMessage summary fromUrl logMap =
      String.intercalate "\n"
        (("Merged revision(s) " ++
            compressRevisions
              (List.insertionSort (· ≤ ·)
                ((summary.results.filter fun r => r.success).map fun r => r.revision)) ++
            " from " ++ branchName fromUrl ++ ":") ::
          (List.insertionSort (· ≤ ·)
              ((summary.results.filter fun r => r.success).map fun r => r.revision)).flatMap
            fun rev =>
              [if logMap rev ≠ "" then logMap rev
               else "(no log message for r" ++ toString rev ++ ")", "........"]) ++ "\n" :=
  ⟨List.sorted_insertionSort _ _, List.perm_insertionSort _ _, rfl⟩

/-- `lexLe` is total. -/
theorem lexLe_total : ∀ a b : List Char, lexLe a b = true ∨ lexLe b a = true := by
  intro a
  induction a with
  | nil => intro b; left; rfl
  | cons x xs ih =>
    intro b
    match b with
    | [] => right; rfl
    | y :: ys =>
      by_cases hxy : x = y
      · subst hxy
        rcases ih ys with h | h
        · left; simpa [lexLe] using h
        · right; simpa [lexLe] using h
      · rcases lt_or_gt_of_ne hxy with h | h
        · left; simp [lexLe, hxy, h]
        · right
          have hyx : y ≠ x := fun he => hxy he.symm
          simp [lexLe, hyx]
          exact h

/-- `lexLe` is transitive. -/
theorem lexLe_trans : ∀ a b c : List Char,
    lexLe a b = true → lexLe b c = true → lexLe a c = true := by
  intro a
  induction a with
  | nil => intro b c _ _; rfl
  | cons x xs ih =>
    intro b c hab hbc
    match b, c with
    | [], _ => simp [lexLe] at hab
    | _ :: _, [] => simp [lexLe] at hbc
    | y :: ys, z :: zs =>
      by_cases hxy : x = y
      · subst hxy
        by_cases hyz : x = z
        · subst hyz
          simp [lexLe] at hab hbc ⊢
          exact ih ys zs hab hbc
        · simp [lexLe, hyz] at hbc ⊢
          exact hbc
      · simp [lexLe, hxy] at hab
        by_cases hyz : y = z
        · subst hyz
          simp [lexLe, hxy]
          exact hab
        · simp [lexLe, hyz] at hbc
          have hxz : x < z := lt_trans hab hbc
          simp [lexLe, ne_of_lt hxz, hxz]

instance : IsTotal SummaryEntry (fun a b => entryLeB a b = true) := by
  constructor
  intro a b
  unfold entryLeB
  rcases ha : a.ignored with _ | _ <;> rcases hb : b.ignored with _ | _ <;> simp
  · exact lexLe_total a.relPath.data b.relPath.data
  · exact lexLe_total a.relPath.data b.relPath.data

instance : IsTrans SummaryEntry (fun a b => entryLeB a b = true) := by
  constructor
  intro a b c hab hbc
  unfold entryLeB at hab hbc ⊢
  rcases ha : a.ignored with _ | _ <;> rcases hb : b.ignored with _ | _ <;>
    rcases hc : c.ignored with _ | _ <;>
    simp [ha, hb, hc] at hab hbc ⊢ <;>
    exact lexLe_trans _ _ _ hab hbc

/-- Left-cancellation for string concatenation. -/
theorem strAppendCancel (s r1 r2 : String) (h : s ++ r1 = s ++ r2) : r1 = r2 := by
  have hd := congrArg String.data h
  rw [String.data_append, String.data_append] at hd
  exact String.ext (List.append_cancel_left hd)

/-- `startsList` holds on any extension of the pattern. -/
theorem startsList_append : ∀ p l : List Char, startsList p (p ++ l) = true := by
  intro p
  induction p with
  | nil => intro l; rfl
  | cons x xs ih => intro l; simp [startsList, ih]

/-- The dedup key determines the entry's type. -/
theorem decode_entryKey (e : SummaryEntry) : decodeType (entryKey e) = some e.type := by
  rcases ht : e.type
  · rw [entryKey, ht]
    show decodeType (("text" ++ ":") ++ e.relPath) = some ConflictType.text
    have h1 : startsList "tree:".data (("text" ++ ":") ++ e.relPath).data = false := rfl
    have h2 : startsList "text:".data (("text" ++ ":") ++ e.relPath).data = true :=
      startsList_append "text:".data e.relPath.data
    rw [decodeType, if_neg (by rw [h1]; exact Bool.false_ne_true), if_pos h2]
  · rw [entryKey, ht]
    show decodeType (("tree" ++ ":") ++ e.relPath) = some ConflictType.tree
    have h1 : startsList "tree:".data (("tree" ++ ":") ++ e.relPath).data = true :=
      startsList_append "tree:".data e.relPath.data
    rw [decodeType, if_pos h1]
  · rw [entryKey, ht]
    show decodeType (("property" ++ ":") ++ e.relPath) = some ConflictType.property
    have h1 : startsList "tree:".data (("property" ++ ":") ++ e.relPath).data = false := rfl
    have h2 : startsList "text:".data (("property" ++ ":") ++ e.relPath).data = false := rfl
    have h3 : startsList "property:".data (("property" ++ ":") ++ e.relPath).data = true :=
      startsList_append "property:".data e.relPath.data
    rw [decodeType, if_neg (by rw [h1]; exact Bool.false_ne_true), if_neg (by rw [h2]; exact Bool.false_ne_true), if_pos h3]

/-- Equal dedup keys mean equal type and equal relative path. -/
theorem entryKey_inj (e1 e2 : SummaryEntry) (h : entryKey e1 = entryKey e2) :
    e1.type = e2.type ∧ e1.relPath = e2.relPath := by
  have htype : e1.type = e2.type := by
    have := congrArg decodeType h
    rw [decode_entryKey, decode_entryKey] at this
    exact Option.some.inj this
  refine ⟨htype, ?_⟩
  rw [entryKey, entryKey, htype] at h
  exact strAppendCancel _ _ _ h

/-- Entries surviving the dedup never carry a key from the seen set. -/
theorem dedupKeyed_not_seen :
    ∀ (l : List SummaryEntry) (seen : List String) (e : SummaryEntry),
      e ∈ dedupKeyed seen l → entryKey e ∉ seen := by
  intro l
  induction l with
  | nil => intro seen e he; simp [dedupKeyed] at he
  | cons x rest ih =>
    intro seen e he
    rw [dedupKeyed] at he
    by_cases hx : seen.contains (entryKey x)
    · rw [if_pos hx] at he
      exact ih seen e he
    · rw [if_neg hx] at he
      rcases List.mem_cons.mp he with h1 | h2
      · subst h1
        intro hmem
        exact hx (List.elem_eq_true_of_mem hmem)
      · intro hmem
        exact ih (entryKey x :: seen) e h2 (List.mem_cons_of_mem _ hmem)

/-- After dedup the keys are pairwise distinct. -/
theorem dedupKeyed_keys_nodup :
    ∀ (l : List SummaryEntry) (seen : List String),
      ((dedupKeyed seen l).map entryKey).Nodup := by
  intro l
  induction l with
  | nil => intro seen; simp [dedupKeyed]
  | cons x rest ih =>
    intro seen
    rw [dedupKeyed]
    by_cases hx : seen.contains (entryKey x)
    · rw [if_pos hx]; exact ih seen
    · rw [if_neg hx]
      rw [List.map_cons, List.nodup_cons]
      refine ⟨?_, ih (entryKey x :: seen)⟩
      intro hmem
      rcases List.mem_map.mp hmem with ⟨e, he, hkey⟩
      exact dedupKeyed_not_seen rest (entryKey x :: seen) e he (hkey ▸ List.mem_cons_self _ _)

/-- Every input key survives the dedup (unless it was already seen). -/
theorem dedupKeyed_complete :
    ∀ (l : List SummaryEntry) (seen : List String) (e : SummaryEntry),
      e ∈ l → entryKey e ∈ seen ∨
        ∃ e2 ∈ dedupKeyed seen l, entryKey e2 = entryKey e := by
  intro l
  induction l with
  | nil => intro seen e he; simp at he
  | cons x rest ih =>
    intro seen e he
    rw [dedupKeyed]
    by_cases hx : seen.contains (entryKey x)
    · rw [if_pos hx]
      rcases List.mem_cons.mp he with h1 | h2
      · subst h1
        exact Or.inl (List.mem_of_elem_eq_true hx)
      · exact ih seen e h2
    · rw [if_neg hx]
      rcases List.mem_cons.mp he with h1 | h2
      · exact Or.inr ⟨x, List.mem_cons_self _ _, by rw [h1]⟩
      · rcases ih (entryKey x :: seen) e h2 with hseen | ⟨e2, he2, hkey⟩
        · rcases List.mem_cons.mp hseen with hk | hk
          · exact Or.inr ⟨x, List.mem_cons_self _ _, hk.symm⟩
          · exact Or.inl hk
        · exact Or.inr ⟨e2, List.mem_cons_of_mem _ he2, hkey⟩

/-- Type purity, relative-path dedup, and sortedness of one sorted
bucket, given pairwise-distinct keys on the collected entries. -/
theorem sortBucket_facts (entries : List SummaryEntry) (t : ConflictType)
    (hkeys : List.Pairwise (fun a b => entryKey a ≠ entryKey b) entries) :
    (∀ e ∈ List.insertionSort (fun a b => entryLeB a b = true)
        (entries.filter fun e => e.type = t), e.type = t) ∧
    ((List.insertionSort (fun a b => entryLeB a b = true)
        (entries.filter fun e => e.type = t)).map (fun e => e.relPath)).Nodup ∧
    List.Sorted (fun a b => entryLeB a b = true)
      (List.insertionSort (fun a b => entryLeB a b = true)
        (entries.filter fun e => e.type = t)) := by
  have hperm := List.perm_insertionSort (fun a b => entryLeB a b = true)
    (entries.filter fun e => e.type = t)
  refine ⟨?_, ?_, List.sorted_insertionSort _ _⟩
  · intro e he
    have := hperm.mem_iff.mp he
    have := List.mem_filter.mp this
    exact of_decide_eq_true this.2
  · have hsub : List.Pairwise (fun a b => entryKey a ≠ entryKey b)
        (entries.filter fun e => e.type = t) :=
      List.Pairwise.filter _ hkeys
    have hrel : List.Pairwise (fun a b : SummaryEntry => a.relPath ≠ b.relPath)
        (entries.filter fun e => e.type = t) := by
      refine List.Pairwise.imp_of_mem ?_ hsub
      intro a b ha hb hkey hrel
      apply hkey
      have hta : a.type = t := of_decide_eq_true (List.mem_filter.mp ha).2
      have htb : b.type = t := of_decide_eq_true (List.mem_filter.mp hb).2
      rw [entryKey, entryKey, hta, htb, hrel]
    have hnodup : ((entries.filter fun e => e.type = t).map (fun e => e.relPath)).Nodup :=
      List.pairwise_map.mpr hrel
    exact ((hperm.map fun e => e.relPath).nodup_iff).mpr hnodup

/-- An entry of the collected list lands in the sorted bucket of its
type. -/
theorem mem_sorted_bucket (entries : List SummaryEntry) (e2 : SummaryEntry) (t : ConflictType)
    (he2 : e2 ∈ entries) (ht : e2.type = t) :
    e2 ∈ List.insertionSort (fun a b => entryLeB a b = true)
      (entries.filter fun e => e.type = t) :=
  (List.perm_insertionSort _ _).mem_iff.mpr
    (List.mem_filter.mpr ⟨he2, decide_eq_true ht⟩)

/-- C8: the aggregated summary groups conflicts into the fixed bucket
order tree/text/property (each bucket holding only its own kind),
deduplicates by (kind, relative path) — within a bucket the relative
paths are pairwise distinct, and every conflict of every revision is
represented in its kind's bucket — and sorts each bucket with
non-ignored entries first and alphabetically by relative path within
each sub-group. -/
theorem summaryAggregator_grouping (results : List RevisionMergeResult) (ws : String) :
    ((∀ e ∈ (groupSummaryByType results ws).tree, e.type = ConflictType.tree) ∧
     (∀ e ∈ (groupSummaryByType results ws).text, e.type = ConflictType.text) ∧
     (∀ e ∈ (groupSummaryByType results ws).property, e.type = ConflictType.property)) ∧
    (((groupSummaryByType results ws).tree.map fun e => e.relPath).Nodup ∧
     ((groupSummaryByType results ws).text.map fun e => e.relPath).Nodup ∧
     ((groupSummaryByType results ws).property.map fun e => e.relPath).Nodup) ∧
    (∀ r ∈ results, ∀ c ∈ r.conflicts,
      ∃ e ∈ bucketOf (groupSummaryByType results ws) c.type,
        e.relPath = relPath c.path ws) ∧
    (List.Sorted (fun a b => entryLeB a b = true) (groupSummaryByType results ws).tree ∧
     List.Sorted (fun a b => entryLeB a b = true) (groupSummaryByType results ws).text ∧
     List.Sorted (fun a b => entryLeB a b = true) (groupSummaryByType results ws).property) := by
  have hkeys : List.Pairwise (fun a b => entryKey a ≠ entryKey b)
      (dedupKeyed [] (results.flatMap fun r => r.conflicts.map (toEntry ws))) :=
    List.pairwise_map.mp
      (dedupKeyed_keys_nodup (results.flatMap fun r => r.conflicts.map (toEntry ws)) [])
  have htree := sortBucket_facts _ ConflictType.tree hkeys
  have htext := sortBucket_facts _ ConflictType.text hkeys
  have hprop := sortBucket_facts _ ConflictType.property hkeys
  refine ⟨⟨htree.1, htext.1, hprop.1⟩, ⟨htree.2.1, htext.2.1, hprop.2.1⟩, ?_,
    htree.2.2, htext.2.2, hprop.2.2⟩
  intro r hr c hc
  have hmem : toEntry ws c ∈ results.flatMap (fun r => r.conflicts.map (toEntry ws)) :=
    List.mem_flatMap.mpr ⟨r, hr, List.mem_map_of_mem _ hc⟩
  rcases dedupKeyed_complete _ [] _ hmem with habs | ⟨e2, he2, hkey⟩
  · simp at habs
  · rcases entryKey_inj e2 (toEntry ws c) hkey with ⟨ht, hrel⟩
    have ht2 : e2.type = c.type := ht
    have hrel2 : e2.relPath = relPath c.path ws := hrel
    cases htc : c.type
    · exact ⟨e2, mem_sorted_bucket _ e2 ConflictType.text he2 (ht2.trans htc), hrel2⟩
    · exact ⟨e2, mem_sorted_bucket _ e2 ConflictType.tree he2 (ht2.trans htc), hrel2⟩
    · exact ⟨e2, mem_sorted_bucket _ e2 ConflictType.property he2 (ht2.trans htc), hrel2⟩

/-- Witness for C8: the conflict reported by revision 2 (a duplicate of
revision 1's) is represented in the text bucket. -/
theorem summaryAggregator_grouping_witness :
    ∃ e ∈ bucketOf (groupSummaryByType resultsDup "/w") ConflictType.text,
      e.relPath = relPath "/w/a.txt" "/w" :=
  (summaryAggregator_grouping resultsDup "/w").2.2.1
    { revision := 2, success := true,
      conflicts := [{ path := "/w/a.txt", type := ConflictType.text,
                      resolution := Resolution.theirsFull, isDirectory := false,
                      ignored := false }],
      reverted := [], errorMessage := none }
    (by decide)
    { path := "/w/a.txt", type := ConflictType.text, resolution := Resolution.theirsFull,
      isDirectory := false, ignored := false }
    (by decide)
